import Mathlib

/-!
Shallow embedding of the sprite encoder `Blitter_32bppSSE_Base::Encode`
from `src/blitter/32bpp_sse2.cpp` of the OpenTTD repository, together with
the layout planner, pixel packer, flag aggregation and run-count logic of
that function.  Constants and auxiliaries declared in headers that are not
part of the provided sources (DEFAULT_BRIGHTNESS, PALETTE_ANIM_START, the
zoom-level bounds, the palette lookup and AdjustBrightneSSE) are modelled
from the specification, as noted on each definition.
-/

set_option maxRecDepth 10000

/-- A decoded source pixel record, `SpriteLoader::CommonPixel`: colour
channels `r g b`, alpha `a` and recolour/map index `m`, each one byte. -/
structure CommonPixel where
  r : Nat
  g : Nat
  b : Nat
  a : Nat
  m : Nat
deriving DecidableEq

/-- A packed 4-byte colour cell with channels r, g, b, a. -/
structure Colour where
  r : Nat
  g : Nat
  b : Nat
  a : Nat
deriving DecidableEq

/-- A packed 2-byte map-value cell: recolour index `m` and brightness `v`. -/
structure MapValue where
  m : Nat
  v : Nat
deriving DecidableEq

/-- Modelled from the spec: the fixed default brightness constant
(`DEFAULT_BRIGHTNESS`, declared in a header outside the provided sources). -/
def DEFAULT_BRIGHTNESS : Nat := 128

/-- Modelled from the spec: the first recolour index of the reserved
animation sub-range (`PALETTE_ANIM_START`, declared outside the provided
sources).  The encoder only compares indices against it with `>=`. -/
def PALETTE_ANIM_START : Nat := 227

/-- Number of uint32 run-count slots at the start of each packed row
(`META_LENGTH`: one left count and one right count). -/
def META_LENGTH : Nat := 2

/-- Modelled from the spec: `AdjustBrightneSSE`, the pure colour transform
scaling a palette colour toward the requested brightness, clamped to the
0..255 channel range.  No claim depends on its internals, only on it being
a pure function of the palette colour and the brightness. -/
def AdjustBrightneSSE (c : Colour) (brightness : Nat) : Colour :=
  { r := min 255 (c.r * brightness / DEFAULT_BRIGHTNESS)
    g := min 255 (c.g * brightness / DEFAULT_BRIGHTNESS)
    b := min 255 (c.b * brightness / DEFAULT_BRIGHTNESS)
    a := c.a }

/-- One iteration of the per-pixel loop of `Encode`
(src/blitter/32bpp_sse2.cpp lines 75-103): returns the colour cell and the
map-value cell written for one source pixel.  The palette collaborator
(`Blitter_32bppBase::LookupColourInPalette`) is passed as a function. -/
def packPixel (palette : Nat → Colour) (src : CommonPixel) : Colour × MapValue :=
  if src.a ≠ 0 then
    if src.m ≠ 0 then
      let rgb_max := max src.r (max src.g src.b)
      let v := if rgb_max = 0 then DEFAULT_BRIGHTNESS else rgb_max
      let c := AdjustBrightneSSE (palette src.m) v
      ({ r := c.r, g := c.g, b := c.b, a := src.a }, { m := src.m, v := v })
    else
      ({ r := src.r, g := src.g, b := src.b, a := src.a },
       { m := src.m, v := DEFAULT_BRIGHTNESS })
  else
    ({ r := 0, g := 0, b := 0, a := 0 }, { m := 0, v := 0 })

/-- The translucency observation of the pixel loop:
`if (src->a != 0 && src->a != 255) has_translucency = true`, guarded by
the enclosing `if (src->a != 0)`. -/
def hasTranslucency (pixels : List CommonPixel) : Bool :=
  pixels.any (fun p => p.a != 0 && p.a != 255)

/-- The remap observation: `has_remap = true` runs when `src->a != 0` and
`src->m != 0`. -/
def hasRemap (pixels : List CommonPixel) : Bool :=
  pixels.any (fun p => p.a != 0 && p.m != 0)

/-- The animation observation: `has_anim = true` runs when `src->a != 0`,
`src->m != 0` and `src->m >= PALETTE_ANIM_START`. -/
def hasAnim (pixels : List CommonPixel) : Bool :=
  pixels.any (fun p => p.a != 0 && p.m != 0 && decide (PALETTE_ANIM_START ≤ p.m))

/-- A decoded sprite for one zoom level (`SpriteLoader::Sprite`): its
dimensions, origin offsets, and the pixel data as a list of rows. -/
structure SpriteSrc where
  width : Nat
  height : Nat
  x_offs : Int
  y_offs : Int
  rows : List (List CommonPixel)
deriving DecidableEq

/-- Well-formedness of a decoded sprite: the row-major pixel buffer has
`height` rows of `width` pixels each. -/
def SpriteSrc.wf (s : SpriteSrc) : Prop :=
  s.rows.length = s.height ∧ ∀ r ∈ s.rows, r.length = s.width

instance (s : SpriteSrc) : Decidable s.wf := by
  unfold SpriteSrc.wf; infer_instance

/-- A sprite collection (`SpriteLoader::SpriteCollection`): one decoded
sprite per zoom level, plus the root record giving the nominal
dimensions and offsets of the outer sprite handle. -/
structure SpriteCollection where
  sprites : Nat → SpriteSrc
  root : SpriteSrc

/-- The count of transparent pixels from the left
(src/blitter/32bpp_sse2.cpp lines 108-115): scan the packed colour cells
left to right, counting while alpha is zero, stopping at the first
nonzero-alpha cell. -/
def countLeftTransparent (cells : List Colour) : Nat :=
  (cells.takeWhile (fun c => c.a == 0)).length

/-- The count of transparent pixels from the right (lines 122-129): the
same scan starting from the last cell, moving left. -/
def countRightTransparent (cells : List Colour) : Nat :=
  (cells.reverse.takeWhile (fun c => c.a == 0)).length

/-- One packed row: the two run-count slots, the colour cells, and the
map-value cells written for this row. -/
structure PackedRow where
  nbLeft : Nat
  nbRight : Nat
  cells : List Colour
  mvs : List MapValue
deriving DecidableEq

/-- Pack one row of source pixels: write each colour and map-value cell
via `packPixel`, then derive the left and right transparent run counts
from the packed cells. -/
def packRow (palette : Nat → Colour) (row : List CommonPixel) : PackedRow :=
  let cells := row.map (fun p => (packPixel palette p).1)
  { nbLeft := countLeftTransparent cells
    nbRight := countRightTransparent cells
    cells := cells
    mvs := row.map (fun p => (packPixel palette p).2) }

/-- Pack every row of one zoom level of the sprite. -/
def packSprite (palette : Nat → Colour) (s : SpriteSrc) : List PackedRow :=
  s.rows.map (packRow palette)

/-- Modelled from the spec: the lowest zoom level, `ZoomLevel::Min`. -/
def zoomLevelMin : Nat := 0

/-- Modelled from the spec: the highest available zoom level,
`ZoomLevel::Max` (declared outside the provided sources). -/
def zoomLevelMax : Nat := 5

/-- The zoom fields of the global client settings
(`_settings_client.gui.zoom_min` and `.zoom_max`). -/
structure GuiZoomSettings where
  zoom_min : Nat
  zoom_max : Nat
deriving DecidableEq

/-- Zoom-range selection of `Encode` (src/blitter/32bpp_sse2.cpp lines
29-35): fonts use the single lowest level; otherwise the configured
range is used, and when the configured maximum equals the configured
minimum the maximum is replaced by `ZoomLevel::Max`. -/
def encodeZoomRange (isFont : Bool) (cfg : GuiZoomSettings) : Nat × Nat :=
  if isFont then (zoomLevelMin, zoomLevelMin)
  else if cfg.zoom_max = cfg.zoom_min then (cfg.zoom_min, zoomLevelMax)
  else (cfg.zoom_min, cfg.zoom_max)

/-- The per-zoom layout record `SpriteData::SpriteInfo`. -/
structure SpriteInfo where
  sprite_width : Nat
  sprite_offset : Nat
  sprite_line_size : Nat
  mv_offset : Nat
deriving DecidableEq

/-- The layout planning loop of `Encode` (lines 40-54): starting at zoom
level `z` with running offset `off`, plan `n` consecutive levels.  Row
stride is `sizeof(Colour) * width + sizeof(uint32) * META_LENGTH`
= 4*width + 8 bytes; each level contributes its RGBA region (stride times
height) followed by its map-value region (2 * width * height), and the
running offset advances past both.  Returns the per-level records and the
final running offset `all_sprites_size`. -/
def planLayoutAux (sprites : Nat → SpriteSrc) : Nat → Nat → Nat → List SpriteInfo × Nat
  | _, off, 0 => ([], off)
  | z, off, Nat.succ n =>
    let s := sprites z
    let line := 4 * s.width + 4 * META_LENGTH
    let rgba := line * s.height
    let mv := 2 * s.width * s.height
    let rest := planLayoutAux sprites (z + 1) (off + rgba + mv) n
    (⟨s.width, off, line, off + rgba⟩ :: rest.1, rest.2)

/-- Layout planning over the inclusive zoom range `zmin..zmax`. -/
def planLayout (sprites : Nat → SpriteSrc) (zmin zmax : Nat) : List SpriteInfo × Nat :=
  planLayoutAux sprites zmin 0 (zmax + 1 - zmin)

/-- All source pixels consumed by the encode loop, in zoom order: the
flattened rows of every sprite in the inclusive range `zmin..zmax`. -/
def allPixels (sprites : Nat → SpriteSrc) (zmin zmax : Nat) : List CommonPixel :=
  ((List.range (zmax + 1 - zmin)).map (fun k => (sprites (zmin + k)).rows.flatten)).flatten

/-- The pixels the encoder consumes for a given sprite type and
configuration. -/
def encodedPixels (isFont : Bool) (cfg : GuiZoomSettings) (coll : SpriteCollection) :
    List CommonPixel :=
  allPixels coll.sprites (encodeZoomRange isFont cfg).1 (encodeZoomRange isFont cfg).2

/-- The structured output of `Encode`: the root dimensions and offsets
written into the `Sprite` header, the planned per-zoom records and total
payload size, the three sprite flags, and the packed rows of every
encoded zoom level. -/
structure EncodedSprite where
  width : Nat
  height : Nat
  x_offs : Int
  y_offs : Int
  infos : List SpriteInfo
  allSize : Nat
  translucent : Bool
  noRemap : Bool
  noAnim : Bool
  levels : List (List PackedRow)

/-- The whole of `Blitter_32bppSSE_Base::Encode` at the structural level:
zoom-range selection, layout planning, per-level packing, and the final
flag computation (`Translucent` when translucency was observed, `NoRemap`
when no remap was observed, `NoAnim` when no animation index was
observed). -/
def Encode (palette : Nat → Colour) (isFont : Bool) (cfg : GuiZoomSettings)
    (coll : SpriteCollection) : EncodedSprite :=
  let zr := encodeZoomRange isFont cfg
  let plan := planLayout coll.sprites zr.1 zr.2
  let px := encodedPixels isFont cfg coll
  { width := coll.root.width
    height := coll.root.height
    x_offs := coll.root.x_offs
    y_offs := coll.root.y_offs
    infos := plan.1
    allSize := plan.2
    translucent := hasTranslucency px
    noRemap := !hasRemap px
    noAnim := !hasAnim px
    levels := (List.range (zr.2 + 1 - zr.1)).map
      (fun k => packSprite palette (coll.sprites (zr.1 + k))) }

/-- A fixed concrete palette used by concrete evaluations. -/
def palette0 : Nat → Colour := fun _ => ⟨0, 0, 0, 255⟩

example :
    packRow palette0 [⟨0, 0, 0, 0, 0⟩, ⟨10, 20, 30, 255, 0⟩] =
      { nbLeft := 1, nbRight := 0,
        cells := [⟨0, 0, 0, 0⟩, ⟨10, 20, 30, 255⟩],
        mvs := [⟨0, 0⟩, ⟨0, 128⟩] } := by decide

/-! ### Helper lemmas -/

theorem getD_map_of_lt {α β : Type} (f : α → β) (l : List α) (i : Nat)
    (hi : i < l.length) (d : α) (d' : β) :
    (l.map f).getD i d' = f (l.getD i d) := by
  rw [List.getD_eq_getElem _ _ (by simpa using hi), List.getD_eq_getElem _ _ hi,
    List.getElem_map]

theorem packRow_cells_getD (palette : Nat → Colour) (row : List CommonPixel)
    (x : Nat) (hx : x < row.length) (d : Colour) :
    (packRow palette row).cells.getD x d =
      (packPixel palette (row.getD x ⟨9, 9, 9, 9, 9⟩)).1 := by
  simp only [packRow]
  exact getD_map_of_lt _ _ _ hx _ _

theorem packRow_mvs_getD (palette : Nat → Colour) (row : List CommonPixel)
    (x : Nat) (hx : x < row.length) (d : MapValue) :
    (packRow palette row).mvs.getD x d =
      (packPixel palette (row.getD x ⟨9, 9, 9, 9, 9⟩)).2 := by
  simp only [packRow]
  exact getD_map_of_lt _ _ _ hx _ _

theorem packSprite_getD (palette : Nat → Colour) (s : SpriteSrc) (y : Nat)
    (hy : y < s.rows.length) (d : PackedRow) :
    (packSprite palette s).getD y d = packRow palette (s.rows.getD y []) := by
  simp only [packSprite]
  exact getD_map_of_lt _ _ _ hy _ _

theorem Encode_levels_getD (palette : Nat → Colour) (isFont : Bool)
    (cfg : GuiZoomSettings) (coll : SpriteCollection) (k : Nat)
    (hk : k < (encodeZoomRange isFont cfg).2 + 1 - (encodeZoomRange isFont cfg).1)
    (d : List PackedRow) :
    (Encode palette isFont cfg coll).levels.getD k d =
      packSprite palette (coll.sprites ((encodeZoomRange isFont cfg).1 + k)) := by
  show ((List.range _).map _).getD k d = _
  rw [getD_map_of_lt _ _ _ (by simpa using hk) 0]
  rw [List.getD_eq_getElem _ _ (by simpa using hk), List.getElem_range]

/-! ### Claim theorems -/

/-- A fixed concrete configuration used by concrete evaluations. -/
def cfg0 : GuiZoomSettings := ⟨0, 0⟩

/-- The 2-by-1 sprite of the scenario: pixel0 fully transparent, pixel1
opaque with no recolour index. -/
def sprite2x1 : SpriteSrc := ⟨2, 1, 0, 0, [[⟨0, 0, 0, 0, 0⟩, ⟨10, 20, 30, 255, 0⟩]]⟩

/-- A collection holding `sprite2x1` at every zoom level. -/
def coll2x1 : SpriteCollection := ⟨fun _ => sprite2x1, sprite2x1⟩

/-- C10: the packed map-value cell is all-zero exactly when the source
alpha is 0; any visible pixel gets a nonzero brightness byte (either
max(r,g,b) > 0 or DEFAULT_BRIGHTNESS = 128). -/
theorem mv_zero_iff_alpha_zero (palette : Nat → Colour) (p : CommonPixel) :
    (packPixel palette p).2 = ⟨0, 0⟩ ↔ p.a = 0 := by
  constructor
  · intro hmv
    by_contra ha
    by_cases hm : p.m = 0
    · simp [packPixel, ha, hm, DEFAULT_BRIGHTNESS, MapValue.mk.injEq] at hmv
    · simp [packPixel, ha, hm, MapValue.mk.injEq] at hmv
  · intro ha
    simp [packPixel, ha]

/-- C6 counterexample: with the degenerate configuration (1, 1), the
encoded range is (1, ZoomLevel::Max), not the full available range
(ZoomLevel::Min, ZoomLevel::Max): only the maximum is widened, the
minimum stays at the configured value. -/
theorem zoom_degenerate_not_full_range :
    encodeZoomRange false ⟨1, 1⟩ = (1, zoomLevelMax) ∧
      encodeZoomRange false ⟨1, 1⟩ ≠ (zoomLevelMin, zoomLevelMax) := by
  decide

/-- C6 (amended): a font glyph collapses the range to the single lowest
level; otherwise the range comes from the configuration, and when the
configured maximum equals the configured minimum only the maximum is
widened to the highest available level; in all cases minimum <= maximum. -/
theorem encode_zoom_range_spec (isFont : Bool) (cfg : GuiZoomSettings)
    (h1 : cfg.zoom_min ≤ cfg.zoom_max) (h2 : cfg.zoom_max ≤ zoomLevelMax) :
    (isFont = true → encodeZoomRange isFont cfg = (zoomLevelMin, zoomLevelMin)) ∧
    (isFont = false → cfg.zoom_max ≠ cfg.zoom_min →
      encodeZoomRange isFont cfg = (cfg.zoom_min, cfg.zoom_max)) ∧
    (isFont = false → cfg.zoom_max = cfg.zoom_min →
      encodeZoomRange isFont cfg = (cfg.zoom_min, zoomLevelMax)) ∧
    (encodeZoomRange isFont cfg).1 ≤ (encodeZoomRange isFont cfg).2 := by
  cases isFont
  · by_cases hc : cfg.zoom_max = cfg.zoom_min
    · refine ⟨by simp, fun _ h => absurd hc h, fun _ _ => by simp [encodeZoomRange, hc], ?_⟩
      simp only [encodeZoomRange, if_neg Bool.false_ne_true, if_pos hc]
      exact le_trans h1 h2
    · refine ⟨by simp, fun _ _ => by simp [encodeZoomRange, hc], fun _ h => absurd h hc, ?_⟩
      simp only [encodeZoomRange, if_neg Bool.false_ne_true, if_neg hc]
      exact h1
  · exact ⟨fun _ => by simp [encodeZoomRange], by simp, by simp, by simp [encodeZoomRange]⟩

/-- Witness for `encode_zoom_range_spec` at a concrete configuration. -/
theorem encode_zoom_range_spec_witness :
    encodeZoomRange true ⟨0, 5⟩ = (zoomLevelMin, zoomLevelMin) :=
  (encode_zoom_range_spec true ⟨0, 5⟩ (by decide) (by decide)).1 rfl

/-- C8: the 2-by-1 single-zoom-level scenario: left run count 1, right
run count 0, pixel1 colour cell {10,20,30,255}, map-value cell0 zero,
cell1 {0, DEFAULT_BRIGHTNESS}, flags Translucent=false, NoRemap=true,
NoAnim=true. -/
theorem scenario_2x1_encode :
    (Encode palette0 true cfg0 coll2x1).levels =
      [[{ nbLeft := 1, nbRight := 0,
          cells := [⟨0, 0, 0, 0⟩, ⟨10, 20, 30, 255⟩],
          mvs := [⟨0, 0⟩, ⟨0, DEFAULT_BRIGHTNESS⟩] }]] ∧
    (Encode palette0 true cfg0 coll2x1).translucent = false ∧
    (Encode palette0 true cfg0 coll2x1).noRemap = true ∧
    (Encode palette0 true cfg0 coll2x1).noAnim = true := by
  decide

/-- C4: for a visible pixel (alpha nonzero), a nonzero recolour index
yields brightness max(r,g,b), or DEFAULT_BRIGHTNESS when that max is 0,
with the index copied into the map-value cell; a zero recolour index
yields the map-value cell {0, DEFAULT_BRIGHTNESS} and the source RGB
copied verbatim into the colour cell. -/
theorem visible_pixel_mapvalue_spec (palette : Nat → Colour) (p : CommonPixel)
    (ha : p.a ≠ 0) :
    (p.m ≠ 0 →
      (packPixel palette p).2.v =
        (if max p.r (max p.g p.b) = 0 then DEFAULT_BRIGHTNESS
         else max p.r (max p.g p.b)) ∧
      (packPixel palette p).2.m = p.m) ∧
    (p.m = 0 →
      (packPixel palette p).2 = ⟨0, DEFAULT_BRIGHTNESS⟩ ∧
      (packPixel palette p).1 = ⟨p.r, p.g, p.b, p.a⟩) := by
  constructor
  · intro hm
    simp [packPixel, ha, hm]
  · intro hm
    simp [packPixel, ha, hm]

/-- Witness for `visible_pixel_mapvalue_spec` at concrete pixels. -/
theorem visible_pixel_mapvalue_spec_witness :
    (packPixel palette0 ⟨10, 20, 30, 255, 3⟩).2.v = 30 ∧
    (packPixel palette0 ⟨10, 20, 30, 255, 0⟩).1 = ⟨10, 20, 30, 255⟩ := by
  constructor
  · have h := (visible_pixel_mapvalue_spec palette0 ⟨10, 20, 30, 255, 3⟩
      (by decide)).1 (by decide)
    rw [h.1]
    decide
  · exact ((visible_pixel_mapvalue_spec palette0 ⟨10, 20, 30, 255, 0⟩
      (by decide)).2 rfl).2

theorem packPixel_transparent (palette : Nat → Colour) (p : CommonPixel)
    (ha : p.a = 0) :
    (packPixel palette p).1 = ⟨0, 0, 0, 0⟩ ∧ (packPixel palette p).2 = ⟨0, 0⟩ := by
  simp [packPixel, ha]

/-- C1: for every zoom level in the encoded range, every row and every
pixel position, a source pixel with alpha 0 yields an all-zero packed
colour cell (all 4 channels) and an all-zero map-value cell (both
bytes). -/
theorem transparent_pixel_cells_zero (palette : Nat → Colour) (isFont : Bool)
    (cfg : GuiZoomSettings) (coll : SpriteCollection) (k y x : Nat)
    (hk : k < (encodeZoomRange isFont cfg).2 + 1 - (encodeZoomRange isFont cfg).1)
    (hy : y < (coll.sprites ((encodeZoomRange isFont cfg).1 + k)).rows.length)
    (hx : x < ((coll.sprites ((encodeZoomRange isFont cfg).1 + k)).rows.getD y []).length)
    (ha : (((coll.sprites ((encodeZoomRange isFont cfg).1 + k)).rows.getD y []).getD x
      ⟨9, 9, 9, 9, 9⟩).a = 0) :
    (((Encode palette isFont cfg coll).levels.getD k []).getD y
        ⟨9, 9, [], []⟩).cells.getD x ⟨9, 9, 9, 9⟩ = ⟨0, 0, 0, 0⟩ ∧
    (((Encode palette isFont cfg coll).levels.getD k []).getD y
        ⟨9, 9, [], []⟩).mvs.getD x ⟨9, 9⟩ = ⟨0, 0⟩ := by
  rw [Encode_levels_getD _ _ _ _ _ hk]
  rw [packSprite_getD _ _ _ hy]
  rw [packRow_cells_getD _ _ _ hx, packRow_mvs_getD _ _ _ hx]
  exact packPixel_transparent palette _ ha

/-- Witness for `transparent_pixel_cells_zero`: the transparent pixel of
the concrete 2-by-1 sprite. -/
theorem transparent_pixel_cells_zero_witness :
    (((Encode palette0 true cfg0 coll2x1).levels.getD 0 []).getD 0
        ⟨9, 9, [], []⟩).cells.getD 0 ⟨9, 9, 9, 9⟩ = ⟨0, 0, 0, 0⟩ ∧
    (((Encode palette0 true cfg0 coll2x1).levels.getD 0 []).getD 0
        ⟨9, 9, [], []⟩).mvs.getD 0 ⟨9, 9⟩ = ⟨0, 0⟩ :=
  transparent_pixel_cells_zero palette0 true cfg0 coll2x1 0 0 0
    (by decide) (by decide) (by decide) (by decide)

/-- A sprite whose only pixel is fully transparent but carries recolour
index 5. -/
def spriteTranspRemap : SpriteSrc := ⟨1, 1, 0, 0, [[⟨0, 0, 0, 0, 5⟩]]⟩

/-- A collection holding `spriteTranspRemap` at every zoom level. -/
def collTranspRemap : SpriteCollection := ⟨fun _ => spriteTranspRemap, spriteTranspRemap⟩

/-- C2 counterexample: a sprite whose only pixel is fully transparent but
carries recolour index 5: a pixel of the encoded data has a nonzero
recolour index, yet Encode sets NoRemap, so "NoRemap iff no pixel had a
nonzero recolour index" is false as stated: only pixels with nonzero
alpha are counted. -/
theorem flags_not_over_all_pixels_cex :
    (Encode palette0 true cfg0 collTranspRemap).noRemap = true ∧
      ¬(∀ p ∈ encodedPixels true cfg0 collTranspRemap, p.m = 0) := by
  decide

/-- C2 (amended): the flags are functions of the encoded pixel data only,
restricted to visible pixels: Translucent iff some pixel has alpha
strictly between 0 and 255; NoRemap iff no pixel with nonzero alpha has a
nonzero recolour index; NoAnim iff no pixel with nonzero alpha has a
recolour index in the reserved animation sub-range. -/
theorem flags_spec (palette : Nat → Colour) (isFont : Bool) (cfg : GuiZoomSettings)
    (coll : SpriteCollection)
    (hbytes : ∀ p ∈ encodedPixels isFont cfg coll, p.a < 256) :
    ((Encode palette isFont cfg coll).translucent = true ↔
      ∃ p ∈ encodedPixels isFont cfg coll, 0 < p.a ∧ p.a < 255) ∧
    ((Encode palette isFont cfg coll).noRemap = true ↔
      ∀ p ∈ encodedPixels isFont cfg coll, p.a ≠ 0 → p.m = 0) ∧
    ((Encode palette isFont cfg coll).noAnim = true ↔
      ∀ p ∈ encodedPixels isFont cfg coll, p.a ≠ 0 → p.m < PALETTE_ANIM_START) := by
  refine ⟨?_, ?_, ?_⟩
  · have ht : (Encode palette isFont cfg coll).translucent =
        hasTranslucency (encodedPixels isFont cfg coll) := rfl
    rw [ht]
    simp only [hasTranslucency, List.any_eq_true, Bool.and_eq_true, bne_iff_ne, ne_eq]
    constructor
    · rintro ⟨p, hp, h0, h255⟩
      exact ⟨p, hp, by omega, by have := hbytes p hp; omega⟩
    · rintro ⟨p, hp, h0, h255⟩
      exact ⟨p, hp, by omega, by omega⟩
  · have hr : (Encode palette isFont cfg coll).noRemap =
        !hasRemap (encodedPixels isFont cfg coll) := rfl
    rw [hr, Bool.not_eq_true']
    simp only [hasRemap, List.any_eq_false, Bool.and_eq_true, bne_iff_ne, ne_eq]
    constructor <;> intro h p hp <;> have := h p hp <;> omega
  · have hn : (Encode palette isFont cfg coll).noAnim =
        !hasAnim (encodedPixels isFont cfg coll) := rfl
    rw [hn, Bool.not_eq_true']
    simp only [hasAnim, List.any_eq_false, Bool.and_eq_true, bne_iff_ne, ne_eq,
      decide_eq_true_eq]
    constructor <;> intro h p hp <;> have := h p hp <;>
      simp only [PALETTE_ANIM_START] at * <;> omega

/-- Witness for `flags_spec` at the concrete 2-by-1 sprite. -/
theorem flags_spec_witness :
    (∀ p ∈ encodedPixels true cfg0 coll2x1, p.a < 256) ∧
    ((Encode palette0 true cfg0 coll2x1).noRemap = true ↔
      ∀ p ∈ encodedPixels true cfg0 coll2x1, p.a ≠ 0 → p.m = 0) :=
  ⟨by decide, (flags_spec palette0 true cfg0 coll2x1 (by decide)).2.1⟩

/-! ### Run-count lemmas (claim about transparent spans) -/

theorem takeWhile_getD_true {α : Type} (p : α → Bool) :
    ∀ (l : List α) (i : Nat) (d : α), i < (l.takeWhile p).length →
      p (l.getD i d) = true
  | [], i, d, hi => by simp at hi
  | a :: t, i, d, hi => by
    cases hp : p a with
    | false => simp [List.takeWhile_cons, hp] at hi
    | true =>
      cases i with
      | zero => simpa using hp
      | succ j =>
        simp only [List.takeWhile_cons, hp, if_true, List.length_cons,
          Nat.succ_lt_succ_iff] at hi
        simpa using takeWhile_getD_true p t j d hi

theorem takeWhile_getD_stop {α : Type} (p : α → Bool) :
    ∀ (l : List α) (d : α), (l.takeWhile p).length < l.length →
      p (l.getD (l.takeWhile p).length d) = false
  | [], d, h => by simp at h
  | a :: t, d, h => by
    cases hp : p a with
    | false => simp [List.takeWhile_cons, hp]
    | true =>
      simp only [List.takeWhile_cons, hp, if_true, List.length_cons,
        Nat.succ_lt_succ_iff] at h
      simpa [List.takeWhile_cons, hp] using takeWhile_getD_stop p t d h

theorem countLeft_spec (cells : List Colour) :
    countLeftTransparent cells ≤ cells.length ∧
    (∀ i, i < countLeftTransparent cells → (cells.getD i ⟨9, 9, 9, 9⟩).a = 0) ∧
    (countLeftTransparent cells < cells.length →
      (cells.getD (countLeftTransparent cells) ⟨9, 9, 9, 9⟩).a ≠ 0) ∧
    ((∀ c ∈ cells, c.a = 0) → countLeftTransparent cells = cells.length) := by
  have hdef : countLeftTransparent cells =
      (cells.takeWhile (fun c => c.a == 0)).length := rfl
  refine ⟨hdef ▸ (List.takeWhile_prefix _).length_le, ?_, ?_, ?_⟩
  · intro i hi
    rw [hdef] at hi
    simpa using takeWhile_getD_true (fun c => c.a == 0) cells i ⟨9, 9, 9, 9⟩ hi
  · intro h hz
    rw [hdef] at h hz
    have := takeWhile_getD_stop (fun c => c.a == 0) cells ⟨9, 9, 9, 9⟩ h
    simp only [beq_eq_false_iff_ne, ne_eq] at this
    exact this hz
  · intro h
    rw [hdef, List.takeWhile_eq_self_iff.mpr (by simpa using h)]

theorem reverse_getD {α : Type} (l : List α) (i : Nat) (hi : i < l.length) (d : α) :
    l.reverse.getD i d = l.getD (l.length - 1 - i) d := by
  rw [List.getD_eq_getElem _ _ (by simpa using hi),
    List.getD_eq_getElem _ _ (by omega), List.getElem_reverse]

theorem countRight_eq_left_reverse (cells : List Colour) :
    countRightTransparent cells = countLeftTransparent cells.reverse := rfl

theorem countRight_spec (cells : List Colour) :
    countRightTransparent cells ≤ cells.length ∧
    (∀ i, i < countRightTransparent cells →
      (cells.getD (cells.length - 1 - i) ⟨9, 9, 9, 9⟩).a = 0) ∧
    (countRightTransparent cells < cells.length →
      (cells.getD (cells.length - 1 - countRightTransparent cells) ⟨9, 9, 9, 9⟩).a ≠ 0) ∧
    ((∀ c ∈ cells, c.a = 0) → countRightTransparent cells = cells.length) := by
  obtain ⟨h1, h2, h3, h4⟩ := countLeft_spec cells.reverse
  rw [countRight_eq_left_reverse]
  refine ⟨by simpa using h1, ?_, ?_, ?_⟩
  · intro i hi
    have hlt : i < cells.length := lt_of_lt_of_le hi (by simpa using h1)
    have := h2 i hi
    rwa [reverse_getD cells i hlt] at this
  · intro h
    have hlt : countLeftTransparent cells.reverse < cells.length := by simpa using h
    have := h3 (by simpa using h)
    rwa [reverse_getD cells _ hlt] at this
  · intro h
    have := h4 (by intro c hc; exact h c (List.mem_reverse.mp hc))
    simpa using this

/-- The run-count property of one packed row: the left count is the
length of the maximal all-transparent prefix (every cell before it has
alpha 0, and the cell at that index, when it exists, has nonzero alpha),
the right count is independently the length of the maximal
all-transparent suffix, and for a fully transparent row both counts
equal the row length. -/
def RunCountSpec (pr : PackedRow) : Prop :=
  pr.nbLeft ≤ pr.cells.length ∧ pr.nbRight ≤ pr.cells.length ∧
  (∀ i, i < pr.nbLeft → (pr.cells.getD i ⟨9, 9, 9, 9⟩).a = 0) ∧
  (pr.nbLeft < pr.cells.length → (pr.cells.getD pr.nbLeft ⟨9, 9, 9, 9⟩).a ≠ 0) ∧
  (∀ i, i < pr.nbRight → (pr.cells.getD (pr.cells.length - 1 - i) ⟨9, 9, 9, 9⟩).a = 0) ∧
  (pr.nbRight < pr.cells.length →
    (pr.cells.getD (pr.cells.length - 1 - pr.nbRight) ⟨9, 9, 9, 9⟩).a ≠ 0) ∧
  ((∀ c ∈ pr.cells, c.a = 0) →
    pr.nbLeft = pr.cells.length ∧ pr.nbRight = pr.cells.length)

theorem packRow_runCountSpec (palette : Nat → Colour) (row : List CommonPixel) :
    RunCountSpec (packRow palette row) := by
  obtain ⟨l1, l2, l3, l4⟩ := countLeft_spec (packRow palette row).cells
  obtain ⟨r1, r2, r3, r4⟩ := countRight_spec (packRow palette row).cells
  exact ⟨l1, r1, l2, l3, r2, r3, fun h => ⟨l4 h, r4 h⟩⟩

/-- C3: every packed row of every encoded zoom level satisfies the
run-count property, and its cell count equals the row width of the
decoded sprite for that level. -/
theorem run_counts_spec (palette : Nat → Colour) (isFont : Bool)
    (cfg : GuiZoomSettings) (coll : SpriteCollection) (k y : Nat)
    (hk : k < (encodeZoomRange isFont cfg).2 + 1 - (encodeZoomRange isFont cfg).1)
    (hy : y < (coll.sprites ((encodeZoomRange isFont cfg).1 + k)).rows.length)
    (hwf : (coll.sprites ((encodeZoomRange isFont cfg).1 + k)).wf) :
    RunCountSpec (((Encode palette isFont cfg coll).levels.getD k []).getD y
      ⟨9, 9, [], []⟩) ∧
    (((Encode palette isFont cfg coll).levels.getD k []).getD y
        ⟨9, 9, [], []⟩).cells.length =
      (coll.sprites ((encodeZoomRange isFont cfg).1 + k)).width := by
  rw [Encode_levels_getD _ _ _ _ _ hk, packSprite_getD _ _ _ hy]
  refine ⟨packRow_runCountSpec _ _, ?_⟩
  have hmem : (coll.sprites ((encodeZoomRange isFont cfg).1 + k)).rows.getD y [] ∈
      (coll.sprites ((encodeZoomRange isFont cfg).1 + k)).rows := by
    rw [List.getD_eq_getElem _ _ hy]
    exact List.getElem_mem _
  have hw := hwf.2 _ hmem
  simp only [packRow, List.length_map]
  exact hw

/-- Witness for `run_counts_spec`: the packed row of the concrete 2-by-1
sprite. -/
theorem run_counts_spec_witness :
    RunCountSpec (((Encode palette0 true cfg0 coll2x1).levels.getD 0 []).getD 0
      ⟨9, 9, [], []⟩) ∧
    (((Encode palette0 true cfg0 coll2x1).levels.getD 0 []).getD 0
        ⟨9, 9, [], []⟩).cells.length = 2 :=
  run_counts_spec palette0 true cfg0 coll2x1 0 0 (by decide) (by decide) (by decide)

/-! ### Layout planner lemmas -/

/-- Total byte size contributed by one level: its RGBA region (row stride
times height) plus its map-value region. -/
def levelSize (s : SpriteSrc) : Nat :=
  (4 * s.width + 4 * META_LENGTH) * s.height + 2 * s.width * s.height

/-- Sum of the sizes of `n` consecutive levels starting at zoom `z`. -/
def sumSizes (sprites : Nat → SpriteSrc) : Nat → Nat → Nat
  | _, 0 => 0
  | z, Nat.succ n => levelSize (sprites z) + sumSizes sprites (z + 1) n

theorem sumSizes_succ_back (sprites : Nat → SpriteSrc) :
    ∀ (n z : Nat), sumSizes sprites z (n + 1) =
      sumSizes sprites z n + levelSize (sprites (z + n))
  | 0, z => by simp [sumSizes]
  | n + 1, z => by
    have h1 : sumSizes sprites z (n + 1 + 1) =
        levelSize (sprites z) + sumSizes sprites (z + 1) (n + 1) := rfl
    have h2 : sumSizes sprites z (n + 1) =
        levelSize (sprites z) + sumSizes sprites (z + 1) n := rfl
    rw [h1, sumSizes_succ_back sprites n (z + 1), h2]
    have h3 : z + 1 + n = z + (n + 1) := by omega
    rw [h3, Nat.add_assoc]

theorem sumSizes_mono (sprites : Nat → SpriteSrc) (z j k : Nat) (h : j ≤ k) :
    sumSizes sprites z j ≤ sumSizes sprites z k := by
  obtain ⟨d, rfl⟩ := Nat.le.dest h
  clear h
  induction d with
  | zero => exact Nat.le_refl _
  | succ d ih =>
    have : j + (d + 1) = (j + d) + 1 := rfl
    rw [this, sumSizes_succ_back]
    exact le_trans ih (Nat.le_add_right _ _)

/-- A junk default used at out-of-range list accesses. -/
def junkInfo : SpriteInfo := ⟨9, 9, 9, 9⟩

theorem planLayoutAux_length (sprites : Nat → SpriteSrc) :
    ∀ (n z off : Nat), (planLayoutAux sprites z off n).1.length = n
  | 0, _, _ => rfl
  | n + 1, z, off => by
    simp [planLayoutAux, planLayoutAux_length sprites n]

theorem planLayoutAux_total (sprites : Nat → SpriteSrc) :
    ∀ (n z off : Nat), (planLayoutAux sprites z off n).2 =
      off + sumSizes sprites z n
  | 0, _, off => by simp [planLayoutAux, sumSizes]
  | n + 1, z, off => by
    have h1 : (planLayoutAux sprites z off (n + 1)).2 =
        (planLayoutAux sprites (z + 1)
          (off + (4 * (sprites z).width + 4 * META_LENGTH) * (sprites z).height
            + 2 * (sprites z).width * (sprites z).height) n).2 := rfl
    rw [h1, planLayoutAux_total sprites n]
    have h2 : sumSizes sprites z (n + 1) =
        levelSize (sprites z) + sumSizes sprites (z + 1) n := rfl
    rw [h2, levelSize]
    omega

theorem planLayoutAux_getD (sprites : Nat → SpriteSrc) :
    ∀ (n z off k : Nat), k < n →
      (planLayoutAux sprites z off n).1.getD k junkInfo =
        ⟨(sprites (z + k)).width,
         off + sumSizes sprites z k,
         4 * (sprites (z + k)).width + 4 * META_LENGTH,
         off + sumSizes sprites z k +
           (4 * (sprites (z + k)).width + 4 * META_LENGTH) * (sprites (z + k)).height⟩
  | 0, _, _, k, hk => absurd hk (Nat.not_lt_zero k)
  | n + 1, z, off, 0, _ => by
    simp [planLayoutAux, sumSizes]
  | n + 1, z, off, k + 1, hk => by
    have h1 : (planLayoutAux sprites z off (n + 1)).1.getD (k + 1) junkInfo =
        (planLayoutAux sprites (z + 1)
          (off + (4 * (sprites z).width + 4 * META_LENGTH) * (sprites z).height
            + 2 * (sprites z).width * (sprites z).height) n).1.getD k junkInfo := rfl
    rw [h1, planLayoutAux_getD sprites n _ _ k (Nat.lt_of_succ_lt_succ hk)]
    have hz : z + 1 + k = z + (k + 1) := by omega
    have hs : off + (4 * (sprites z).width + 4 * META_LENGTH) * (sprites z).height
        + 2 * (sprites z).width * (sprites z).height
        + sumSizes sprites (z + 1) k = off + sumSizes sprites z (k + 1) := by
      have h2 : sumSizes sprites z (k + 1) =
          levelSize (sprites z) + sumSizes sprites (z + 1) k := rfl
      rw [h2, levelSize]
      omega
    rw [hz, hs]

/-- C5: the layout plan over the encoded range assigns each level a row
stride of 8 + 4*width bytes, an RGBA region starting at the running
offset (the sum of the sizes of the preceding levels), a map-value region
of 2*width*height bytes immediately after that level's RGBA region,
consecutive levels start exactly where the previous level's map-value
region ends, offsets are monotone in zoom order, regions of distinct
levels are disjoint (each level ends before any later level starts), and
the total equals the sum of all level sizes used to size the single
allocation. -/
theorem layout_plan_spec (sprites : Nat → SpriteSrc) (zmin zmax : Nat)
    (_h : zmin ≤ zmax) :
    (planLayout sprites zmin zmax).1.length = zmax + 1 - zmin ∧
    (∀ k, k < zmax + 1 - zmin →
      ((planLayout sprites zmin zmax).1.getD k junkInfo).sprite_width =
        (sprites (zmin + k)).width ∧
      ((planLayout sprites zmin zmax).1.getD k junkInfo).sprite_line_size =
        8 + 4 * (sprites (zmin + k)).width ∧
      ((planLayout sprites zmin zmax).1.getD k junkInfo).sprite_offset =
        sumSizes sprites zmin k ∧
      ((planLayout sprites zmin zmax).1.getD k junkInfo).mv_offset =
        ((planLayout sprites zmin zmax).1.getD k junkInfo).sprite_offset +
          ((planLayout sprites zmin zmax).1.getD k junkInfo).sprite_line_size *
            (sprites (zmin + k)).height ∧
      (k + 1 < zmax + 1 - zmin →
        ((planLayout sprites zmin zmax).1.getD (k + 1) junkInfo).sprite_offset =
          ((planLayout sprites zmin zmax).1.getD k junkInfo).mv_offset +
            2 * (sprites (zmin + k)).width * (sprites (zmin + k)).height)) ∧
    (∀ j k, j ≤ k → k < zmax + 1 - zmin →
      ((planLayout sprites zmin zmax).1.getD j junkInfo).sprite_offset ≤
        ((planLayout sprites zmin zmax).1.getD k junkInfo).sprite_offset) ∧
    (∀ j k, j < k → k < zmax + 1 - zmin →
      ((planLayout sprites zmin zmax).1.getD j junkInfo).mv_offset +
          2 * (sprites (zmin + j)).width * (sprites (zmin + j)).height ≤
        ((planLayout sprites zmin zmax).1.getD k junkInfo).sprite_offset) ∧
    (planLayout sprites zmin zmax).2 = sumSizes sprites zmin (zmax + 1 - zmin) := by
  have hplan : planLayout sprites zmin zmax =
      planLayoutAux sprites zmin 0 (zmax + 1 - zmin) := rfl
  have hget : ∀ k, k < zmax + 1 - zmin →
      (planLayout sprites zmin zmax).1.getD k junkInfo =
        ⟨(sprites (zmin + k)).width,
         sumSizes sprites zmin k,
         4 * (sprites (zmin + k)).width + 4 * META_LENGTH,
         sumSizes sprites zmin k +
           (4 * (sprites (zmin + k)).width + 4 * META_LENGTH) *
             (sprites (zmin + k)).height⟩ := by
    intro k hk
    rw [hplan, planLayoutAux_getD sprites _ _ _ k hk]
    simp
  refine ⟨by rw [hplan]; exact planLayoutAux_length sprites _ _ _, ?_, ?_, ?_, ?_⟩
  · intro k hk
    refine ⟨by rw [hget k hk], by rw [hget k hk]; simp [META_LENGTH]; omega,
      by rw [hget k hk], by rw [hget k hk], ?_⟩
    intro hk1
    rw [hget k hk, hget (k + 1) hk1]
    have hstep : sumSizes sprites zmin (k + 1) =
        sumSizes sprites zmin k + levelSize (sprites (zmin + k)) :=
      sumSizes_succ_back sprites k zmin
    simp only [SpriteInfo.mk.injEq]
    rw [hstep, levelSize, META_LENGTH]
    ring
  · intro j k hjk hk
    rw [hget j (lt_of_le_of_lt hjk hk), hget k hk]
    exact sumSizes_mono sprites zmin j k hjk
  · intro j k hjk hk
    rw [hget j (lt_trans hjk hk), hget k hk]
    have hstep : sumSizes sprites zmin (j + 1) =
        sumSizes sprites zmin j + levelSize (sprites (zmin + j)) :=
      sumSizes_succ_back sprites j zmin
    have hmono := sumSizes_mono sprites zmin (j + 1) k hjk
    rw [hstep, levelSize] at hmono
    simpa using by omega
  · rw [hplan, planLayoutAux_total sprites _ _ _]
    exact Nat.zero_add _

/-- Witness for `layout_plan_spec` at a concrete one-level collection. -/
theorem layout_plan_spec_witness :
    (planLayout coll2x1.sprites 0 0).1.length = 1 ∧
    (planLayout coll2x1.sprites 0 0).2 = sumSizes coll2x1.sprites 0 1 := by
  have h := layout_plan_spec coll2x1.sprites 0 0 (by decide)
  exact ⟨h.1, h.2.2.2.2⟩

/-! ### Flag noninterference -/

/-- Two source pixels agree on everything the packing loop observes when
their alphas are equal and, whenever that alpha is nonzero, the whole
records are equal; fully transparent pixels may differ arbitrarily in
the colour channels and the recolour index. -/
def agreeOnVisible (p q : CommonPixel) : Prop :=
  p.a = q.a ∧ (p.a ≠ 0 → p = q)

instance (p q : CommonPixel) : Decidable (agreeOnVisible p q) := by
  unfold agreeOnVisible; infer_instance

theorem forall₂_map_same {α β : Type} {R : β → β → Prop} (f g : α → β) :
    ∀ (l : List α), (∀ a ∈ l, R (f a) (g a)) →
      List.Forall₂ R (l.map f) (l.map g)
  | [], _ => List.Forall₂.nil
  | a :: t, h =>
    List.Forall₂.cons (h a (by simp))
      (forall₂_map_same f g t (fun x hx => h x (by simp [hx])))

theorem any_congr_forall₂ {α β : Type} {R : α → β → Prop} (f : α → Bool)
    (g : β → Bool) (hfg : ∀ a b, R a b → f a = g b) :
    ∀ {l1 : List α} {l2 : List β}, List.Forall₂ R l1 l2 → l1.any f = l2.any g := by
  intro l1 l2 h
  induction h with
  | nil => rfl
  | cons hab _ ih => simp only [List.any_cons, hfg _ _ hab, ih]

/-- C9: the three flags are computed only from pixels with nonzero
alpha: if two inputs agree pointwise on every visible pixel (and on the
alpha channel everywhere) and differ arbitrarily in the colour channels
and recolour indices of fully transparent pixels, Encode produces the
same Translucent, NoRemap and NoAnim flags for both, even with different
palettes. -/
theorem flags_depend_only_on_visible (palette1 palette2 : Nat → Colour)
    (isFont : Bool) (cfg : GuiZoomSettings) (coll1 coll2 : SpriteCollection)
    (h : ∀ k, k < (encodeZoomRange isFont cfg).2 + 1 - (encodeZoomRange isFont cfg).1 →
      List.Forall₂ (List.Forall₂ agreeOnVisible)
        (coll1.sprites ((encodeZoomRange isFont cfg).1 + k)).rows
        (coll2.sprites ((encodeZoomRange isFont cfg).1 + k)).rows) :
    (Encode palette1 isFont cfg coll1).translucent =
      (Encode palette2 isFont cfg coll2).translucent ∧
    (Encode palette1 isFont cfg coll1).noRemap =
      (Encode palette2 isFont cfg coll2).noRemap ∧
    (Encode palette1 isFont cfg coll1).noAnim =
      (Encode palette2 isFont cfg coll2).noAnim := by
  have hpx : List.Forall₂ agreeOnVisible (encodedPixels isFont cfg coll1)
      (encodedPixels isFont cfg coll2) := by
    apply List.rel_flatten
    apply forall₂_map_same
    intro k hk
    exact List.rel_flatten (h k (List.mem_range.mp hk))
  refine ⟨?_, ?_, ?_⟩
  · show hasTranslucency _ = hasTranslucency _
    apply any_congr_forall₂ _ _ _ hpx
    rintro p q ⟨ha, _⟩
    rw [ha]
  · show (!hasRemap _) = !hasRemap _
    congr 1
    apply any_congr_forall₂ _ _ _ hpx
    rintro p q ⟨ha, heq⟩
    by_cases h0 : p.a = 0
    · rw [← ha]
      simp [h0]
    · rw [heq h0]
  · show (!hasAnim _) = !hasAnim _
    congr 1
    apply any_congr_forall₂ _ _ _ hpx
    rintro p q ⟨ha, heq⟩
    by_cases h0 : p.a = 0
    · rw [← ha]
      simp [h0]
    · rw [heq h0]

/-- A 1-by-1 sprite whose only pixel is invisible with a zero recolour
index. -/
def spriteInvisA : SpriteSrc := ⟨1, 1, 0, 0, [[⟨0, 0, 0, 0, 0⟩]]⟩

/-- A 1-by-1 sprite whose only pixel is invisible but carries an
animation-range recolour index and junk colour channels. -/
def spriteInvisB : SpriteSrc := ⟨1, 1, 0, 0, [[⟨7, 7, 7, 0, 240⟩]]⟩

/-- A collection holding `spriteInvisA` at every zoom level. -/
def collInvisA : SpriteCollection := ⟨fun _ => spriteInvisA, spriteInvisA⟩

/-- A collection holding `spriteInvisB` at every zoom level. -/
def collInvisB : SpriteCollection := ⟨fun _ => spriteInvisB, spriteInvisB⟩

/-- Witness for `flags_depend_only_on_visible`: two concrete collections
differing only in the invisible pixel's colour and recolour fields. -/
theorem flags_depend_only_on_visible_witness :
    (Encode palette0 true cfg0 collInvisA).translucent =
      (Encode palette0 true cfg0 collInvisB).translucent ∧
    (Encode palette0 true cfg0 collInvisA).noRemap =
      (Encode palette0 true cfg0 collInvisB).noRemap ∧
    (Encode palette0 true cfg0 collInvisA).noAnim =
      (Encode palette0 true cfg0 collInvisB).noAnim := by
  refine flags_depend_only_on_visible palette0 palette0 true cfg0
    collInvisA collInvisB ?_
  intro k hk
  have hk1 : k < 1 := hk
  have hk0 : k = 0 := by omega
  subst hk0
  exact List.Forall₂.cons (List.Forall₂.cons (by decide) List.Forall₂.nil)
    List.Forall₂.nil

/-! ### Byte-level output and junk-memory independence -/

/-- Little-endian bytes of a uint32 value. -/
def u32Bytes (v : Nat) : List Nat :=
  [v % 256, v / 256 % 256, v / 65536 % 256, v / 16777216 % 256]

/-- The four bytes of a colour cell, channel order r, g, b, a. -/
def colourBytes (c : Colour) : List Nat := [c.r, c.g, c.b, c.a]

/-- The two bytes of a map-value cell: index then brightness. -/
def mvBytes (m : MapValue) : List Nat := [m.m, m.v]

/-- The bytes of one packed row: the left run-count slot, the right
run-count slot, then the colour cells. -/
def packedRowBytes (pr : PackedRow) : List Nat :=
  u32Bytes pr.nbLeft ++ u32Bytes pr.nbRight ++ (pr.cells.map colourBytes).flatten

/-- The map-value bytes of one level: the dst_mv pointer advances cell by
cell over all rows, so they are consecutive. -/
def mvLevelBytes (palette : Nat → Colour) (rows : List (List CommonPixel)) : List Nat :=
  (rows.flatten.map (fun p => mvBytes (packPixel palette p).2)).flatten

/-- Write one byte at an address of a byte memory. -/
def writeByte (mem : Nat → Nat) (addr v : Nat) : Nat → Nat :=
  fun a => if a = addr then v else mem a

/-- Write a list of bytes at consecutive addresses. -/
def writeBytesList : (Nat → Nat) → Nat → List Nat → (Nat → Nat)
  | mem, _, [] => mem
  | mem, addr, b :: bs => writeBytesList (writeByte mem addr b) (addr + 1) bs

/-- Write the packed rows of one level: dst_rgba_line starts at the
level's RGBA offset and advances by sprite_line_size for every row. -/
def writeRgbaRows (palette : Nat → Colour) :
    (Nat → Nat) → Nat → Nat → List (List CommonPixel) → (Nat → Nat)
  | mem, _, _, [] => mem
  | mem, addr, lineSize, row :: rest =>
    writeRgbaRows palette
      (writeBytesList mem addr (packedRowBytes (packRow palette row)))
      (addr + lineSize) lineSize rest

/-- The per-level write loop of `Encode` (lines 66-130): for each level of
the range, write the packed rows into the RGBA region at the running
offset and the map-value cells into the region just after it.  The RGBA
and map-value regions of a level are disjoint, so the per-pixel
interleaving of the source is sequenced region-wise here. -/
def writeLevels (palette : Nat → Colour) (sprites : Nat → SpriteSrc) :
    (Nat → Nat) → Nat → Nat → Nat → (Nat → Nat)
  | mem, _, _, 0 => mem
  | mem, z, off, Nat.succ n =>
    let s := sprites z
    let line := 4 * s.width + 4 * META_LENGTH
    let rgba := line * s.height
    let mv := 2 * s.width * s.height
    let mem1 := writeRgbaRows palette mem off line s.rows
    let mem2 := writeBytesList mem1 (off + rgba) (mvLevelBytes palette s.rows)
    writeLevels palette sprites mem2 (z + 1) (off + rgba + mv) n

/-- The payload region of the single allocation after `Encode` ran:
start from arbitrary junk memory contents (the allocator does not
zero-initialise), perform all writes of the encode loop, and read back
the number of bytes the layout planner sized the allocation with. -/
def encodePayload (palette : Nat → Colour) (junk : Nat → Nat)
    (sprites : Nat → SpriteSrc) (zmin zmax : Nat) : List Nat :=
  (List.range (planLayout sprites zmin zmax).2).map
    (writeLevels palette sprites junk zmin 0 (zmax + 1 - zmin))

/-- The junk-free serialisation of one level: all packed row bytes, then
all map-value bytes. -/
def levelBytes (palette : Nat → Colour) (s : SpriteSrc) : List Nat :=
  (s.rows.map (fun r => packedRowBytes (packRow palette r))).flatten ++
    mvLevelBytes palette s.rows

/-- The junk-free serialisation of `n` consecutive levels from zoom `z`. -/
def payloadBytes (palette : Nat → Colour) (sprites : Nat → SpriteSrc) :
    Nat → Nat → List Nat
  | _, 0 => []
  | z, Nat.succ n => levelBytes palette (sprites z) ++ payloadBytes palette sprites (z + 1) n

theorem writeBytesList_append : ∀ (bs1 : List Nat) (mem : Nat → Nat) (addr : Nat)
    (bs2 : List Nat),
    writeBytesList (writeBytesList mem addr bs1) (addr + bs1.length) bs2 =
      writeBytesList mem addr (bs1 ++ bs2)
  | [], mem, addr, bs2 => by simp [writeBytesList]
  | b :: t, mem, addr, bs2 => by
    have h0 : writeBytesList mem addr (b :: t) =
        writeBytesList (writeByte mem addr b) (addr + 1) t := rfl
    have h1 : addr + (b :: t).length = (addr + 1) + t.length := by
      simp [List.length_cons]
      omega
    rw [h0, h1, writeBytesList_append t (writeByte mem addr b) (addr + 1) bs2]
    rfl

theorem writeBytesList_out_lt : ∀ (bs : List Nat) (mem : Nat → Nat) (addr a : Nat),
    a < addr → (writeBytesList mem addr bs) a = mem a
  | [], _, _, _, _ => rfl
  | b :: t, mem, addr, a, h => by
    have h0 : writeBytesList mem addr (b :: t) =
        writeBytesList (writeByte mem addr b) (addr + 1) t := rfl
    rw [h0, writeBytesList_out_lt t _ (addr + 1) a (by omega)]
    simp only [writeByte]
    rw [if_neg (by omega)]

theorem writeBytesList_getD : ∀ (bs : List Nat) (mem : Nat → Nat) (addr i : Nat),
    i < bs.length → (writeBytesList mem addr bs) (addr + i) = bs.getD i 0
  | [], _, _, i, h => absurd h (by simp)
  | b :: t, mem, addr, 0, _ => by
    have h0 : writeBytesList mem addr (b :: t) =
        writeBytesList (writeByte mem addr b) (addr + 1) t := rfl
    rw [Nat.add_zero, h0, writeBytesList_out_lt t _ (addr + 1) addr (by omega)]
    simp [writeByte]
  | b :: t, mem, addr, i + 1, h => by
    have h0 : writeBytesList mem addr (b :: t) =
        writeBytesList (writeByte mem addr b) (addr + 1) t := rfl
    have h1 : addr + (i + 1) = (addr + 1) + i := by omega
    rw [h0, h1, writeBytesList_getD t _ (addr + 1) i (by simpa using h)]
    simp [List.getD_cons_succ]

theorem range_map_writeBytesList (bs : List Nat) (junk : Nat → Nat) :
    (List.range bs.length).map (writeBytesList junk 0 bs) = bs := by
  apply List.ext_getElem
  · simp
  · intro i h1 h2
    rw [List.getElem_map, List.getElem_range]
    have := writeBytesList_getD bs junk 0 i h2
    rw [Nat.zero_add] at this
    rw [this, List.getD_eq_getElem _ _ h2]

theorem length_flatten_of_forall {α : Type} (f : α → List Nat) (c : Nat) :
    ∀ (l : List α), (∀ a ∈ l, (f a).length = c) →
      ((l.map f).flatten).length = c * l.length
  | [], _ => by simp
  | a :: t, h => by
    simp only [List.map_cons, List.flatten_cons, List.length_append, List.length_cons,
      h a (by simp), length_flatten_of_forall f c t (fun x hx => h x (by simp [hx]))]
    ring

theorem length_packedRowBytes (palette : Nat → Colour) (row : List CommonPixel) :
    (packedRowBytes (packRow palette row)).length = 4 * META_LENGTH + 4 * row.length := by
  have hc : (packRow palette row).cells = row.map (fun p => (packPixel palette p).1) := rfl
  simp only [packedRowBytes, List.length_append, u32Bytes, List.length_cons,
    List.length_nil, hc]
  rw [length_flatten_of_forall colourBytes 4 _ (fun a _ => rfl)]
  simp [META_LENGTH]

theorem length_mvLevelBytes (palette : Nat → Colour) (rows : List (List CommonPixel)) :
    (mvLevelBytes palette rows).length = 2 * rows.flatten.length := by
  simp only [mvLevelBytes]
  rw [length_flatten_of_forall (fun p => mvBytes (packPixel palette p).2) 2 _
    (fun a _ => rfl)]

theorem sum_map_const {α : Type} (c : Nat) :
    ∀ (l : List α) (f : α → Nat), (∀ a ∈ l, f a = c) → (l.map f).sum = c * l.length
  | [], _, _ => by simp
  | a :: t, f, h => by
    simp only [List.map_cons, List.sum_cons, List.length_cons, h a (by simp),
      sum_map_const c t f (fun x hx => h x (by simp [hx]))]
    ring

theorem flatten_length_wf (s : SpriteSrc) (hwf : s.wf) :
    s.rows.flatten.length = s.width * s.height := by
  rw [List.length_flatten, sum_map_const s.width s.rows List.length hwf.2, hwf.1]

theorem length_levelBytes (palette : Nat → Colour) (s : SpriteSrc) (hwf : s.wf) :
    (levelBytes palette s).length = levelSize s := by
  simp only [levelBytes, List.length_append]
  rw [length_flatten_of_forall _ (4 * META_LENGTH + 4 * s.width) s.rows
      (fun r hr => by rw [length_packedRowBytes, hwf.2 r hr]),
    length_mvLevelBytes, flatten_length_wf s hwf, hwf.1, levelSize, META_LENGTH]
  ring

theorem payloadBytes_length (palette : Nat → Colour) (sprites : Nat → SpriteSrc) :
    ∀ (n z : Nat), (∀ k, k < n → (sprites (z + k)).wf) →
      (payloadBytes palette sprites z n).length = sumSizes sprites z n
  | 0, _, _ => rfl
  | n + 1, z, h => by
    have h0 : payloadBytes palette sprites z (n + 1) =
        levelBytes palette (sprites z) ++ payloadBytes palette sprites (z + 1) n := rfl
    have hwf0 : (sprites z).wf := by simpa using h 0 (by omega)
    have hrec : ∀ k, k < n → (sprites ((z + 1) + k)).wf := by
      intro k hk
      have hw := h (k + 1) (by omega)
      have he : z + (k + 1) = (z + 1) + k := by omega
      rwa [he] at hw
    rw [h0, List.length_append, length_levelBytes palette _ hwf0,
      payloadBytes_length palette sprites n (z + 1) hrec]
    rfl

theorem writeRgbaRows_eq (palette : Nat → Colour) (w : Nat) :
    ∀ (rows : List (List CommonPixel)) (mem : Nat → Nat) (addr : Nat),
      (∀ r ∈ rows, r.length = w) →
      writeRgbaRows palette mem addr (4 * w + 4 * META_LENGTH) rows =
        writeBytesList mem addr
          ((rows.map (fun r => packedRowBytes (packRow palette r))).flatten)
  | [], mem, addr, _ => rfl
  | row :: rest, mem, addr, h => by
    have h0 : writeRgbaRows palette mem addr (4 * w + 4 * META_LENGTH) (row :: rest) =
        writeRgbaRows palette
          (writeBytesList mem addr (packedRowBytes (packRow palette row)))
          (addr + (4 * w + 4 * META_LENGTH)) (4 * w + 4 * META_LENGTH) rest := rfl
    have hlen : (packedRowBytes (packRow palette row)).length =
        4 * w + 4 * META_LENGTH := by
      rw [length_packedRowBytes, h row (by simp)]
      omega
    rw [h0, writeRgbaRows_eq palette w rest _ _ (fun r hr => h r (by simp [hr])),
      ← hlen, writeBytesList_append]
    simp [List.flatten_cons]

theorem writeLevels_eq (palette : Nat → Colour) (sprites : Nat → SpriteSrc) :
    ∀ (n z off : Nat) (mem : Nat → Nat),
      (∀ k, k < n → (sprites (z + k)).wf) →
      writeLevels palette sprites mem z off n =
        writeBytesList mem off (payloadBytes palette sprites z n)
  | 0, _, _, _, _ => rfl
  | n + 1, z, off, mem, h => by
    have hwf0 : (sprites z).wf := by simpa using h 0 (by omega)
    have hrec : ∀ k, k < n → (sprites ((z + 1) + k)).wf := by
      intro k hk
      have hw := h (k + 1) (by omega)
      have he : z + (k + 1) = (z + 1) + k := by omega
      rwa [he] at hw
    have h0 : writeLevels palette sprites mem z off (n + 1) =
        writeLevels palette sprites
          (writeBytesList
            (writeRgbaRows palette mem off
              (4 * (sprites z).width + 4 * META_LENGTH) (sprites z).rows)
            (off + (4 * (sprites z).width + 4 * META_LENGTH) * (sprites z).height)
            (mvLevelBytes palette (sprites z).rows))
          (z + 1)
          (off + (4 * (sprites z).width + 4 * META_LENGTH) * (sprites z).height
            + 2 * (sprites z).width * (sprites z).height) n := rfl
    rw [h0, writeLevels_eq palette sprites n (z + 1) _ _ hrec]
    rw [writeRgbaRows_eq palette (sprites z).width (sprites z).rows mem off hwf0.2]
    have hrgba : ((((sprites z).rows).map
        (fun r => packedRowBytes (packRow palette r))).flatten).length =
        (4 * (sprites z).width + 4 * META_LENGTH) * (sprites z).height := by
      rw [length_flatten_of_forall _ (4 * META_LENGTH + 4 * (sprites z).width)
        _ (fun r hr => by rw [length_packedRowBytes, hwf0.2 r hr]), hwf0.1]
      ring
    rw [← hrgba, writeBytesList_append]
    have hlvl : ((((sprites z).rows).map
          (fun r => packedRowBytes (packRow palette r))).flatten ++
        mvLevelBytes palette (sprites z).rows) = levelBytes palette (sprites z) := rfl
    rw [hlvl]
    have haddr : off + ((((sprites z).rows).map
        (fun r => packedRowBytes (packRow palette r))).flatten).length
        + 2 * (sprites z).width * (sprites z).height =
        off + (levelBytes palette (sprites z)).length := by
      rw [← hlvl, List.length_append, length_mvLevelBytes,
        flatten_length_wf _ hwf0]
      ring
    rw [haddr, writeBytesList_append]
    rfl

theorem encodePayload_eq (palette : Nat → Colour) (junk : Nat → Nat)
    (sprites : Nat → SpriteSrc) (zmin zmax : Nat)
    (hwf : ∀ k, k < zmax + 1 - zmin → (sprites (zmin + k)).wf) :
    encodePayload palette junk sprites zmin zmax =
      payloadBytes palette sprites zmin (zmax + 1 - zmin) := by
  have h0 : encodePayload palette junk sprites zmin zmax =
      (List.range (planLayout sprites zmin zmax).2).map
        (writeLevels palette sprites junk zmin 0 (zmax + 1 - zmin)) := rfl
  have htot : (planLayout sprites zmin zmax).2 =
      (payloadBytes palette sprites zmin (zmax + 1 - zmin)).length := by
    have h1 : (planLayout sprites zmin zmax).2 =
        (planLayoutAux sprites zmin 0 (zmax + 1 - zmin)).2 := rfl
    rw [h1, planLayoutAux_total sprites _ _ _,
      payloadBytes_length palette sprites _ _ hwf]
    exact Nat.zero_add _
  rw [h0, writeLevels_eq palette sprites _ _ _ _ hwf, htot,
    range_map_writeBytesList]

/-- C7: the encoder output does not depend on the junk contents the
allocator returned: the payload bytes read back from the allocation are
equal for any two initial memory contents (every byte of the planned
payload region is written by the encode loop), hence two runs of Encode
on the same decoded collection, palette and zoom range produce
byte-identical buffers.  The structural header (`Encode` itself) is a
pure function of the same inputs by construction. -/
theorem encode_payload_junk_independent (palette : Nat → Colour)
    (junk1 junk2 : Nat → Nat) (sprites : Nat → SpriteSrc) (zmin zmax : Nat)
    (hwf : ∀ k, k < zmax + 1 - zmin → (sprites (zmin + k)).wf) :
    encodePayload palette junk1 sprites zmin zmax =
      encodePayload palette junk2 sprites zmin zmax := by
  rw [encodePayload_eq palette junk1 sprites zmin zmax hwf,
    encodePayload_eq palette junk2 sprites zmin zmax hwf]

/-- Witness for `encode_payload_junk_independent`: two different concrete
junk memories give the same payload for the concrete 2-by-1 sprite. -/
theorem encode_payload_junk_independent_witness :
    encodePayload palette0 (fun _ => 7) coll2x1.sprites 0 0 =
      encodePayload palette0 (fun _ => 9) coll2x1.sprites 0 0 :=
  encode_payload_junk_independent palette0 (fun _ => 7) (fun _ => 9)
    coll2x1.sprites 0 0 (by decide)
